import Mathlib

/-!
Verification of the image-mapper core of `ribbybibby/platform-examples`.

This file gives a shallow embedding, in Lean 4, of:

* the repository-catalog data model and alias correction
  (`internal/mapper/repos.go`: `Repo`, `RepoList`, `fixAliases`,
  `aliasesFixes`),
* the in-memory caching client (`cachingRepoClient.ListRepos`),
* the on-disk caching client (`fileCachingRepoClient.ListRepos`,
  `getRepoList`, `putRepoList`),
* the status/body handling of the remote catalog client
  (`repoClient.ListRepos`),
* the Helm-values tree rewriter (`internal/helm/helm.go`: `MapValues`,
  `walkValues`, `mapFn`, `mapImage`, `setValue`).

Time is modelled as an integer clock (`now : Int`); `time.Since(t)` is
`now - t`, and Go durations are integers in the same unit.  Go's opaque
`error` values are modelled by explicit error types.  Stateful methods
become explicit state passing; each cache operation additionally returns
the number of calls it made to the wrapped (delegate) client.
-/

namespace ImageMapper

/-- `Tag` from repos.go: a tag in a repository. -/
structure Tag where
  name : String
deriving Repr, DecidableEq

/-- `Repo` from repos.go: a repo in the catalog. -/
structure Repo where
  name : String
  catalogTier : String
  aliases : List String
  activeTags : List String
  tags : List Tag
deriving Repr, DecidableEq

/-- `RepoList` from repos.go: a list of repos plus the fetch timestamp. -/
structure RepoList where
  repos : List Repo
  fetchedAt : Int
deriving Repr, DecidableEq

/-- The `aliasesFixes` table from repos.go, transcribed entry for entry.
The Go value is a `map[string][]string`; its keys are unique, so an
ordered association list is a faithful model. -/
def aliasesFixes : List (String × List String) := [
  ("argocd-repo-server", []),
  ("argocd-repo-server-fips", []),
  ("argo-cli", ["quay.io/argoproj/argocli"]),
  ("argo-cli-fips", ["quay.io/argoproj/argocli"]),
  ("argo-events", ["quay.io/argoproj/argo-events"]),
  ("argo-events-fips", ["quay.io/argoproj/argo-events"]),
  ("argo-exec", ["quay.io/argoproj/argoexec"]),
  ("argo-exec-fips", ["quay.io/argoproj/argoexec"]),
  ("argo-workflowcontroller", ["quay.io/argoproj/workflow-controller"]),
  ("argo-workflowcontroller-fips", ["quay.io/argoproj/workflow-controller"]),
  ("crossplane-aws", ["ghcr.io/crossplane-contrib/provider-family-aws"]),
  ("crossplane-aws-cloudformation", ["ghcr.io/crossplane-contrib/provider-aws-cloudformation"]),
  ("crossplane-aws-cloudformation-fips", ["ghcr.io/crossplane-contrib/provider-aws-cloudformation"]),
  ("crossplane-aws-cloudfront", ["ghcr.io/crossplane-contrib/provider-aws-cloudfront"]),
  ("crossplane-aws-cloudfront-fips", ["ghcr.io/crossplane-contrib/provider-aws-cloudfront"]),
  ("crossplane-aws-cloudwatchlogs", ["ghcr.io/crossplane-contrib/provider-aws-cloudwatchlogs"]),
  ("crossplane-aws-cloudwatchlogs-fips", ["ghcr.io/crossplane-contrib/provider-aws-cloudwatchlogs"]),
  ("crossplane-aws-dynamodb", ["ghcr.io/crossplane-contrib/provider-aws-dynamodb"]),
  ("crossplane-aws-dynamodb-fips", ["ghcr.io/crossplane-contrib/provider-aws-dynamodb"]),
  ("crossplane-aws-ec2", ["ghcr.io/crossplane-contrib/provider-aws-ec2"]),
  ("crossplane-aws-ec2-fips", ["ghcr.io/crossplane-contrib/provider-aws-ec2"]),
  ("crossplane-aws-eks", ["ghcr.io/crossplane-contrib/provider-aws-eks"]),
  ("crossplane-aws-eks-fips", ["ghcr.io/crossplane-contrib/provider-aws-eks"]),
  ("crossplane-aws-elasticache", ["ghcr.io/crossplane-contrib/provider-aws-elasticache"]),
  ("crossplane-aws-elasticache-fips", ["ghcr.io/crossplane-contrib/provider-aws-elasticache"]),
  ("crossplane-aws-fips", ["ghcr.io/crossplane-contrib/provider-family-aws"]),
  ("crossplane-aws-firehose", ["ghcr.io/crossplane-contrib/provider-aws-firehose"]),
  ("crossplane-aws-firehose-fips", ["ghcr.io/crossplane-contrib/provider-aws-firehose"]),
  ("crossplane-aws-iam", ["ghcr.io/crossplane-contrib/provider-aws-iam"]),
  ("crossplane-aws-iam-fips", ["ghcr.io/crossplane-contrib/provider-aws-iam"]),
  ("crossplane-aws-kinesis", ["ghcr.io/crossplane-contrib/provider-aws-kinesis"]),
  ("crossplane-aws-kinesis-fips", ["ghcr.io/crossplane-contrib/provider-aws-kinesis"]),
  ("crossplane-aws-kms", ["ghcr.io/crossplane-contrib/provider-aws-kms"]),
  ("crossplane-aws-kms-fips", ["ghcr.io/crossplane-contrib/provider-aws-kms"]),
  ("crossplane-aws-lambda", ["ghcr.io/crossplane-contrib/provider-aws-lambda"]),
  ("crossplane-aws-lambda-fips", ["ghcr.io/crossplane-contrib/provider-aws-lambda"]),
  ("crossplane-aws-memorydb", ["ghcr.io/crossplane-contrib/provider-aws-memorydb"]),
  ("crossplane-aws-memorydb-fips", ["ghcr.io/crossplane-contrib/provider-aws-memorydb"]),
  ("crossplane-aws-rds", ["ghcr.io/crossplane-contrib/provider-aws-rds"]),
  ("crossplane-aws-rds-fips", ["ghcr.io/crossplane-contrib/provider-aws-rds"]),
  ("crossplane-aws-route53", ["ghcr.io/crossplane-contrib/provider-aws-route53"]),
  ("crossplane-aws-route53-fips", ["ghcr.io/crossplane-contrib/provider-aws-route53"]),
  ("crossplane-aws-s3", ["ghcr.io/crossplane-contrib/provider-aws-s3"]),
  ("crossplane-aws-s3-fips", ["ghcr.io/crossplane-contrib/provider-aws-s3"]),
  ("crossplane-aws-sns", ["ghcr.io/crossplane-contrib/provider-aws-sns"]),
  ("crossplane-aws-sns-fips", ["ghcr.io/crossplane-contrib/provider-aws-sns"]),
  ("crossplane-aws-sqs", ["ghcr.io/crossplane-contrib/provider-aws-sqs"]),
  ("crossplane-aws-sqs-fips", ["ghcr.io/crossplane-contrib/provider-aws-sqs"]),
  ("cert-manager-acmesolver", ["quay.io/jetstack/cert-manager-acmesolver"]),
  ("cert-manager-acmesolver-fips", ["quay.io/jetstack/cert-manager-acmesolver"]),
  ("cert-manager-acmesolver-iamguarded", ["quay.io/jetstack/cert-manager-acmesolver"]),
  ("cert-manager-acmesolver-iamguarded-fips", ["quay.io/jetstack/cert-manager-acmesolver"]),
  ("cert-manager-cainjector", ["quay.io/jetstack/cert-manager-cainjector"]),
  ("cert-manager-cainjector-fips", ["quay.io/jetstack/cert-manager-cainjector"]),
  ("cert-manager-cainjector-iamguarded", ["quay.io/jetstack/cert-manager-cainjector"]),
  ("cert-manager-cainjector-iamguarded-fips", ["quay.io/jetstack/cert-manager-cainjector"]),
  ("cert-manager-cmctl", ["quay.io/jetstack/cmctl"]),
  ("cert-manager-cmctl-fips", ["quay.io/jetstack/cmctl"]),
  ("cert-manager-webhook", ["quay.io/jetstack/cert-manager-webhook"]),
  ("cert-manager-webhook-fips", ["quay.io/jetstack/cert-manager-webhook"]),
  ("cert-manager-webhook-iamguarded", ["quay.io/jetstack/cert-manager-webhook"]),
  ("cert-manager-webhook-iamguarded-fips", ["quay.io/jetstack/cert-manager-webhook"]),
  ("flux", ["ghcr.io/fluxcd/flux-cli"]),
  ("flux-fips", ["ghcr.io/fluxcd/flux-cli"]),
  ("flux-helm-controller", ["ghcr.io/fluxcd/helm-controller"]),
  ("flux-helm-controller-fips", ["ghcr.io/fluxcd/helm-controller"]),
  ("flux-image-automation-controller", ["ghcr.io/fluxcd/image-automation-controller"]),
  ("flux-image-automation-controller-fips", ["ghcr.io/fluxcd/image-automation-controller"]),
  ("flux-image-reflector-controller", ["ghcr.io/fluxcd/image-reflector-controller"]),
  ("flux-image-reflector-controller-fips", ["ghcr.io/fluxcd/image-reflector-controller"]),
  ("flux-kustomize-controller", ["ghcr.io/fluxcd/kustomize-controller"]),
  ("flux-kustomize-controller-fips", ["ghcr.io/fluxcd/kustomize-controller"]),
  ("flux-notification-controller", ["ghcr.io/fluxcd/notification-controller"]),
  ("flux-notification-controller-fips", ["ghcr.io/fluxcd/notification-controller"]),
  ("flux-source-controller", ["ghcr.io/fluxcd/source-controller"]),
  ("flux-source-controller-fips", ["ghcr.io/fluxcd/source-controller"]),
  ("kyverno-cli", ["ghcr.io/kyverno/kyverno-cli"]),
  ("kyverno-cli-fips", ["ghcr.io/kyverno/kyverno-cli-fips"]),
  ("kyverno", ["ghcr.io/kyverno/kyverno"]),
  ("kyverno-fips", ["ghcr.io/kyverno/kyverno"]),
  ("kyvernopre", ["ghcr.io/kyverno/kyvernopre"]),
  ("kyvernopre-fips", ["ghcr.io/kyverno/kyvernopre"]),
  ("kyverno-background-controller", ["ghcr.io/kyverno/background-controller"]),
  ("kyverno-background-controller-fips", ["ghcr.io/kyverno/background-controller"]),
  ("kyverno-cleanup-controller", ["ghcr.io/kyverno/cleanup-controller"]),
  ("kyverno-cleanup-controller-fips", ["ghcr.io/kyverno/cleanup-controller"]),
  ("kyverno-reports-controller", ["ghcr.io/kyverno/reports-controller"]),
  ("kyverno-reports-controller-fips", ["ghcr.io/kyverno/reports-controller"]),
  ("minio-client", ["quay.io/minio/mc"]),
  ("minio-client-fips", ["quay.io/minio/mc"]),
  ("minio-operator", ["quay.io/minio/operator"]),
  ("minio-operator-fips", ["quay.io/minio/operator"]),
  ("minio-operator-sidecar", ["quay.io/minio/operator-sidecar"]),
  ("minio-operator-sidecar-fips", ["quay.io/minio/operator-sidecar"]),
  ("mongodb-kubernetes-operator-readinessprobe", ["quay.io/mongodb/mongodb-kubernetes-readinessprobe"]),
  ("mongodb-kubernetes-operator-readinessprobe-fips", ["quay.io/mongodb/mongodb-kubernetes-readinessprobe"]),
  ("mongodb-kubernetes-operator-version-upgrade-post-start-hook", ["quay.io/mongodb/mongodb-kubernetes-operator-version-upgrade-post-start-hook"]),
  ("mongodb-kubernetes-operator-version-upgrade-post-start-hook-fips", ["quay.io/mongodb/mongodb-kubernetes-operator-version-upgrade-post-start-hook"]),
  ("postgres-cloudnative-pg", ["ghcr.io/cloudnative-pg/postgresql"]),
  ("postgres-cloudnative-pg-fips", ["ghcr.io/cloudnative-pg/postgresql"]),
  ("vault-k8s", ["hashicorp/vault-k8s"])]

/-- Lookup of a repo name in the correction table (the inner loop of
`fixAliases` scans the whole Go map; since the map keys are unique, at
most one entry applies, so `find?` is equivalent). -/
def lookupFix (name : String) : Option (List String) :=
  (aliasesFixes.find? (fun kv => kv.1 == name)).map (fun kv => kv.2)

/-- `fixAliases` from repos.go: for each repo whose name occurs in
`aliasesFixes`, replace its aliases with the table value; all other
repos (and all other fields) pass through unchanged. -/
def fixAliases (repos : List Repo) : List Repo :=
  repos.map (fun repo =>
    match lookupFix repo.name with
    | some aliases => { repo with aliases := aliases }
    | none => repo)

/-!
## In-memory caching client (`cachingRepoClient`)

The Go method runs under an exclusive lock; a single call is modelled as
a pure function of the clock, the (one-shot) delegate outcome and the
cached state.  The result triple is (returned value, new cached state,
number of delegate calls made).
-/

/-- The delegate branch of `cachingRepoClient.ListRepos` (from the fetch
onwards: call the wrapped client; on error return it and leave the cache
as it was; on success store the fresh list and return it). -/
def cachingFetch (delegate : Except String RepoList) (st : Option RepoList) :
    Except String RepoList × Option RepoList × Nat :=
  match delegate with
  | Except.error e => (Except.error e, st, 1)
  | Except.ok rl => (Except.ok rl, some rl, 1)

/-- `cachingRepoClient.ListRepos` from repos.go: if a cached list exists
and `now - fetchedAt < cacheDuration`, return it without touching the
wrapped client; otherwise fetch through the wrapped client. -/
def cachingListRepos (cacheDuration now : Int) (delegate : Except String RepoList)
    (st : Option RepoList) : Except String RepoList × Option RepoList × Nat :=
  match st with
  | some rl =>
    if now - rl.fetchedAt < cacheDuration then
      (Except.ok rl, some rl, 0)
    else
      cachingFetch delegate st
  | none => cachingFetch delegate st

/-!
## On-disk caching client (`fileCachingRepoClient`)

The cache file `repos.json` is modelled by its observable contents:
absent, unreadable (a read error other than not-exist), corrupt (present
but not valid JSON for a `RepoList`), or valid.  `os.MkdirAll` and
`os.WriteFile` outcomes are modelled by two booleans (partial-write
states are not modelled: on a failed write the previous contents are
kept).
-/

/-- Observable state of the cache file. -/
inductive CacheFile where
  | absent
  | unreadable
  | corrupt
  | valid (rl : RepoList)
deriving Repr, DecidableEq

/-- Errors of `fileCachingRepoClient.getRepoList`. -/
inductive CacheErr where
  | notFoundInCache
  | readError
  | unmarshalError
deriving Repr, DecidableEq

/-- `fileCachingRepoClient.getRepoList` from repos.go: read the cache
file; a not-exist error becomes `errNotFoundInCache`; any other read
error is wrapped; contents that do not unmarshal are an error; valid
contents are returned. -/
def getRepoList : CacheFile → Except CacheErr RepoList
  | CacheFile.absent => Except.error CacheErr.notFoundInCache
  | CacheFile.unreadable => Except.error CacheErr.readError
  | CacheFile.corrupt => Except.error CacheErr.unmarshalError
  | CacheFile.valid rl => Except.ok rl

/-- Errors of `fileCachingRepoClient.putRepoList` (JSON marshalling of a
`RepoList` cannot fail and is not modelled as fallible). -/
inductive PutErr where
  | mkdirError
  | writeError
deriving Repr, DecidableEq

/-- `fileCachingRepoClient.putRepoList` from repos.go: create the cache
directory (`os.MkdirAll`), marshal the list, and overwrite the cache
file. -/
def putRepoList (mkdirOk writeOk : Bool) (rl : RepoList) :
    Except PutErr CacheFile :=
  if !mkdirOk then Except.error PutErr.mkdirError
  else if !writeOk then Except.error PutErr.writeError
  else Except.ok (CacheFile.valid rl)

/-- Errors surfaced by `fileCachingRepoClient.ListRepos`. -/
inductive FileErr where
  | cacheErr (e : CacheErr)
  | delegateErr (e : String)
  | putErr (e : PutErr)
deriving Repr, DecidableEq

/-- The fetch-and-persist branch of `fileCachingRepoClient.ListRepos`. -/
def fileFetch (delegate : Except String RepoList) (mkdirOk writeOk : Bool)
    (file : CacheFile) : Except FileErr RepoList × CacheFile × Nat :=
  match delegate with
  | Except.error e => (Except.error (FileErr.delegateErr e), file, 1)
  | Except.ok rl =>
    match putRepoList mkdirOk writeOk rl with
    | Except.error pe => (Except.error (FileErr.putErr pe), file, 1)
    | Except.ok file2 => (Except.ok rl, file2, 1)

/-- `fileCachingRepoClient.ListRepos` from repos.go: read the cached
list; any error other than `errNotFoundInCache` is returned as-is; if a
cached list exists and `now - fetchedAt < cacheDuration`, return it;
otherwise fetch through the wrapped client and persist the result. -/
def fileListRepos (cacheDuration now : Int) (delegate : Except String RepoList)
    (mkdirOk writeOk : Bool) (file : CacheFile) :
    Except FileErr RepoList × CacheFile × Nat :=
  match getRepoList file with
  | Except.error e =>
    if e = CacheErr.notFoundInCache then
      fileFetch delegate mkdirOk writeOk file
    else
      (Except.error (FileErr.cacheErr e), file, 0)
  | Except.ok cachedList =>
    if now - cachedList.fetchedAt < cacheDuration then
      (Except.ok cachedList, file, 0)
    else
      fileFetch delegate mkdirOk writeOk file

/-!
## Remote catalog client (`repoClient.ListRepos`)

Request construction and the transport call (`http.Client.Do`) either
fail before any response exists or produce a response; the decision
logic modelled here starts from a received response, which carries a
status code and a body.  A body either decodes as the expected
`{data: {repos: [...]}}` JSON shape (denoted by the repos it carries) or
is malformed.
-/

/-- A response body: either well-formed JSON for the expected shape
(denoted by the decoded repos), or malformed. -/
inductive Body where
  | wellFormed (repos : List Repo)
  | malformed
deriving Repr, DecidableEq

/-- Errors of the response handling in `repoClient.ListRepos`. -/
inductive ListErr where
  | statusErr (code : Nat)
  | decodeErr
deriving Repr, DecidableEq

/-- The response handling of `repoClient.ListRepos` from repos.go: a
status code other than `http.StatusOK` (200) is an error; a body that
fails to decode is an error; otherwise the decoded repos are returned
with `fixAliases` applied and the current time as `fetchedAt`. -/
def repoClientListRepos (now : Int) (statusCode : Nat) (body : Body) :
    Except ListErr RepoList :=
  if statusCode ≠ 200 then Except.error (ListErr.statusErr statusCode)
  else
    match body with
    | Body.malformed => Except.error ListErr.decodeErr
    | Body.wellFormed repos =>
      Except.ok { repos := fixAliases repos, fetchedAt := now }

/-!
## Image references

`mapImage` in helm.go parses the first mapper candidate with
`name.ParseReference` from the external go-containerregistry `name`
package and writes back its canonical context (registry/repository,
any tag stripped).
-/

/-- A parsed image reference: registry, repository path and tag.
Corresponds to the context and tag of a go-containerregistry
`name.Reference`. -/
structure Reference where
  registry : String
  repository : String
  tag : String
deriving Repr, DecidableEq

/-- Lowercase letter or digit. -/
def isLowerAlnum (c : Char) : Bool :=
  (decide ('a' ≤ c) && decide (c ≤ 'z')) || (decide ('0' ≤ c) && decide (c ≤ '9'))

/-- Characters allowed in a repository path. -/
def isRepoChar (c : Char) : Bool :=
  isLowerAlnum c || c = '.' || c = '_' || c = '-' || c = '/'

/-- Characters allowed in a tag. -/
def isTagChar (c : Char) : Bool :=
  isLowerAlnum c || (decide ('A' ≤ c) && decide (c ≤ 'Z')) || c = '.' || c = '_' || c = '-'

/-- Characters allowed in a registry host (with optional port). -/
def isRegistryChar (c : Char) : Bool :=
  isLowerAlnum c || c = '.' || c = '-' || c = ':'

/-- Split a character list on a separator character. -/
def splitOnChar (c : Char) : List Char → List (List Char)
  | [] => [[]]
  | x :: xs =>
    match splitOnChar c xs with
    | [] => [[]]
    | r :: rs => if x = c then [] :: r :: rs else (x :: r) :: rs

/-- Join character lists with a separator character. -/
def joinWithChar (c : Char) : List (List Char) → List Char
  | [] => []
  | [p] => p
  | p :: ps => p ++ c :: joinWithChar c ps

/-- Modelled from the spec: the reference parser of the external
go-containerregistry `name` package (a dependency, not part of this
repository).  Per the spec's glossary a canonical reference is a
normalized `registry/repository[:tag]` form: the tag is split off at the
last colon when the part after it contains no slash (defaulting to
`latest`); the leading path component is the registry when it contains a
dot or colon or is `localhost`, otherwise the Docker Hub default
`index.docker.io` is assumed and single-component repositories get the
implicit `library/` namespace; repository, tag and registry must consist
of valid characters.  Digest references (`@`) are not modelled and are
rejected. -/
def parseReference (s : String) : Except Unit Reference :=
  let cs := s.toList
  if cs.contains '@' then Except.error ()
  else
    let parts := splitOnChar ':' cs
    let baseTag :=
      match parts.getLast? with
      | some last =>
        if parts.length > 1 && !(last.contains '/') then
          (joinWithChar ':' parts.dropLast, last)
        else (cs, "latest".toList)
      | none => (cs, "latest".toList)
    let tagCs := baseTag.2
    if tagCs.isEmpty || !(tagCs.all isTagChar) then Except.error ()
    else
      let regRepo :=
        match splitOnChar '/' baseTag.1 with
        | first :: rest =>
          if rest ≠ [] &&
              (first.contains '.' || first.contains ':' || first = "localhost".toList) then
            (first, joinWithChar '/' rest)
          else (([] : List Char), baseTag.1)
        | [] => (([] : List Char), baseTag.1)
      let regCs := regRepo.1
      let repoCs := regRepo.2
      if repoCs.isEmpty || !(repoCs.all isRepoChar) then Except.error ()
      else if !(regCs.all isRegistryChar) then Except.error ()
      else
        Except.ok
          { registry := if regCs.isEmpty then "index.docker.io" else String.mk regCs
            repository :=
              if regCs.isEmpty && !(repoCs.contains '/') then "library/" ++ String.mk repoCs
              else String.mk repoCs
            tag := String.mk tagCs }

/-- `Repository.String()` of the reference's context: the canonical
`registry/repository` form, tag stripped. -/
def contextString (r : Reference) : String :=
  r.registry ++ "/" ++ r.repository

/-!
## The `Mapper` interface and `mapImage`
-/

/-- `Mapping` from the mapper package: the input image and its ranked
candidate replacements. -/
structure Mapping where
  image : String
  results : List String
deriving Repr, DecidableEq

/-- The `mapper.Mapper` interface: `Map(image) (*Mapping, error)`,
modelled as a function. -/
def Mapper : Type := String → Except Unit Mapping

/-- `mapImage` from helm.go: call the mapper; an error or an empty
result list is a failure; otherwise parse the first candidate. -/
def mapImage (m : Mapper) (img : String) : Except Unit Reference :=
  match m img with
  | Except.error _ => Except.error ()
  | Except.ok mapping =>
    match mapping.results with
    | [] => Except.error ()
    | r :: _ => parseReference r

/-!
## The values tree

`yaml.Unmarshal` into `map[string]interface{}` produces nested
string-keyed maps (`map[string]interface{}`), sequences
(`[]interface{}`), strings and other scalars.  Maps are modelled as
ordered association lists (Go map iteration order is unspecified; the
list order stands for one iteration order, and Go map key uniqueness
corresponds to association-list reads and writes through
`assocFind`/`assocSet`).
-/

mutual

/-- An untyped YAML value. -/
inductive Value where
  | str (s : String)
  | vmap (fields : Fields)
  | seq (elems : ValueList)
  | other
deriving Repr

/-- The entries of a string-keyed mapping. -/
inductive Fields where
  | nil
  | fcons (key : String) (value : Value) (rest : Fields)
deriving Repr

/-- The elements of a sequence. -/
inductive ValueList where
  | nil
  | vcons (head : Value) (rest : ValueList)
deriving Repr

end

/-- Go map read: the value at a key, if present. -/
def assocFind (f : Fields) (k : String) : Option Value :=
  match f with
  | Fields.nil => none
  | Fields.fcons k2 v rest => if k2 = k then some v else assocFind rest k

/-- Go map write: replace the value at a key, or append the binding. -/
def assocSet (f : Fields) (k : String) (v : Value) : Fields :=
  match f with
  | Fields.nil => Fields.fcons k v Fields.nil
  | Fields.fcons k2 v2 rest =>
    if k2 = k then Fields.fcons k v rest
    else Fields.fcons k2 v2 (assocSet rest k v)

/-- `setValue` from helm.go: walk the path, creating empty intermediate
maps where a key is absent, and set the final key to the value.  The
source navigates with an unchecked type assertion
(`current[k].(map[string]interface{})`): when an intermediate key holds
a non-map value the Go program aborts, modelled by `none`. -/
def setValue (out : Fields) (path : List String) (v : Value) : Option Fields :=
  match path with
  | [] => some out
  | [k] => some (assocSet out k v)
  | k :: rest =>
    match assocFind out k with
    | none =>
      match setValue Fields.nil rest v with
      | none => none
      | some sub => some (assocSet out k (Value.vmap sub))
    | some (Value.vmap sub) =>
      match setValue sub rest v with
      | none => none
      | some sub2 => some (assocSet out k (Value.vmap sub2))
    | some _ => none

/-- The `var repo string; if v, ok := img["repository"]; ok { repo, ok =
v.(string) }` block of `mapFn`: the repository field's string value, or
`""` when the field is absent or not a string. -/
def repoField (img : Fields) : String :=
  match assocFind img "repository" with
  | some (Value.str s) => s
  | _ => ""

/-- The `registry`-concatenation step of `mapFn`: the repository string
to map, prefixed by the `registry` field's value when that field holds a
non-empty string. -/
def fullRepoField (img : Fields) : String :=
  match assocFind img "registry" with
  | some (Value.str rv) => if rv ≠ "" then rv ++ "/" ++ repoField img else repoField img
  | _ => repoField img

/-- `mapFn` from helm.go (with the `outputValues` closure state passed
explicitly): on a key equal to `image`, a scalar string value is mapped
and written at the same path; a mapping value with a non-empty string
`repository` field is mapped (prefixed by a non-empty string `registry`
field when present) and written back as separate `registry`/`repository`
fields when the `registry` key is present, or as a single `repository`
field otherwise; everything else is ignored.  The Go function's error
result is always nil; the only abnormal outcome is the `setValue`
abort. -/
def mapFn (m : Mapper) (path : List String) (key : String) (value : Value)
    (out : Fields) : Option Fields :=
  if key ≠ "image" then some out
  else
    match value with
    | Value.str img =>
      match mapImage m img with
      | Except.ok ref => setValue out (path ++ [key]) (Value.str (contextString ref))
      | Except.error _ => some out
    | Value.vmap img =>
      if repoField img ≠ "" then
        match mapImage m (fullRepoField img) with
        | Except.ok ref =>
          if (assocFind img "registry").isSome then
            match setValue out (path ++ [key, "registry"]) (Value.str ref.registry) with
            | none => none
            | some out2 =>
              setValue out2 (path ++ [key, "repository"]) (Value.str ref.repository)
          else
            setValue out (path ++ [key, "repository"]) (Value.str (contextString ref))
        | Except.error _ => some out
      else some out
    | _ => some out

/-- `walkValues` from helm.go, specialized to `mapFn` with the output
state threaded: call the function on each key, then recurse into values
that are themselves string-keyed mappings. -/
def walkValues (m : Mapper) (path : List String) (values : Fields) (out : Fields) :
    Option Fields :=
  match values with
  | Fields.nil => some out
  | Fields.fcons k v rest =>
    match mapFn m path k v out with
    | none => none
    | some out1 =>
      match v with
      | Value.vmap next =>
        match walkValues m (path ++ [k]) next out1 with
        | none => none
        | some out2 => walkValues m path rest out2
      | _ => walkValues m path rest out1

/-- `MapValues` from helm.go at the tree level: walk the input values
with `mapFn` writing into a fresh, empty output tree.  The surrounding
YAML byte decoding/encoding is external; the walk's own error return is
always nil (`mapFn` never returns an error), so the only abnormal
outcome is the `setValue` abort, modelled by `none`. -/
def mapValuesTree (m : Mapper) (input : Fields) : Option Fields :=
  walkValues m [] input Fields.nil

/-!
## Analysis infrastructure

The traversal is characterized by the ordered list of `setValue` calls
it performs (its *writes*), and by the list of `(path, key, value)`
triples `walkValues` passes to the walk function (its *visits*).
-/

/-- The writes performed by one `mapFn` call, in order. -/
def writesV (m : Mapper) (path : List String) (key : String) (value : Value) :
    List (List String × Value) :=
  if key ≠ "image" then []
  else
    match value with
    | Value.str img =>
      match mapImage m img with
      | Except.ok ref => [(path ++ [key], Value.str (contextString ref))]
      | Except.error _ => []
    | Value.vmap img =>
      if repoField img ≠ "" then
        match mapImage m (fullRepoField img) with
        | Except.ok ref =>
          if (assocFind img "registry").isSome then
            [(path ++ [key, "registry"], Value.str ref.registry),
             (path ++ [key, "repository"], Value.str ref.repository)]
          else
            [(path ++ [key, "repository"], Value.str (contextString ref))]
        | Except.error _ => []
      else []
    | _ => []

/-- The writes performed by the whole traversal, in traversal order. -/
def writesF (m : Mapper) (path : List String) (values : Fields) :
    List (List String × Value) :=
  match values with
  | Fields.nil => []
  | Fields.fcons k v rest =>
    writesV m path k v ++
      ((match v with
        | Value.vmap next => writesF m (path ++ [k]) next
        | _ => []) ++
       writesF m path rest)

/-- The `(path, key, value)` triples `walkValues` passes to the walk
function, in traversal order. -/
def visitsF (path : List String) (values : Fields) :
    List (List String × String × Value) :=
  match values with
  | Fields.nil => []
  | Fields.fcons k v rest =>
    (path, k, v) ::
      ((match v with
        | Value.vmap next => visitsF (path ++ [k]) next
        | _ => []) ++
       visitsF path rest)

/-- Perform a list of writes in order with `setValue`. -/
def applyWrites : Fields → List (List String × Value) → Option Fields
  | out, [] => some out
  | out, (p, v) :: rest =>
    match setValue out p v with
    | none => none
    | some out2 => applyWrites out2 rest

/-- The value stored at a (nonempty) key path of a tree. -/
def getPath : Fields → List String → Option Value
  | _, [] => none
  | f, [k] => assocFind f k
  | f, k :: rest =>
    match assocFind f k with
    | some (Value.vmap sub) => getPath sub rest
    | _ => none

/-- Neither path is a (weak) prefix of the other. -/
def pathsIncomparable (p q : List String) : Bool :=
  !(p.isPrefixOf q) && !(q.isPrefixOf p)

/-- The paths of a write list. -/
def writePaths (ws : List (List String × Value)) : List (List String) :=
  ws.map (fun w => w.1)

/-- Pairwise prefix-incomparability of a list of paths. -/
def PrefixFreeP (L : List (List String)) : Prop :=
  L.Pairwise (fun p q => pathsIncomparable p q = true)

instance (L : List (List String)) : Decidable (PrefixFreeP L) :=
  inferInstanceAs (Decidable (L.Pairwise (fun p q => pathsIncomparable p q = true)))

mutual

/-- Replacing every sequence's elements by nothing (used to show that
sequence elements never affect the traversal). -/
def pruneV : Value → Value
  | Value.str s => Value.str s
  | Value.vmap f => Value.vmap (pruneF f)
  | Value.seq _ => Value.seq ValueList.nil
  | Value.other => Value.other

/-- `pruneV` mapped over a tree's entries. -/
def pruneF : Fields → Fields
  | Fields.nil => Fields.nil
  | Fields.fcons k v rest => Fields.fcons k (pruneV v) (pruneF rest)

end

/-!
## Concrete mappers, documents and records used in witnesses and counterexamples
-/

/-- The record used in the C5 witness. -/
def repoArgoCli : Repo :=
  { name := "argo-cli", catalogTier := "APPLICATION",
    aliases := ["wrong-alias"], activeTags := [], tags := [] }


/-- The snapshot used in cache witnesses. -/
def rlOld : RepoList := { repos := [repoArgoCli], fetchedAt := 0 }


/-- A second snapshot used in cache witnesses. -/
def rlNew : RepoList := { repos := [], fetchedAt := 90 }


/-- A mapper that maps exactly the image `nginx`. -/
def mNginx : Mapper := fun img =>
  if img = "nginx" then
    Except.ok { image := img, results := ["cgr.dev/chainguard/nginx:latest"] }
  else
    Except.ok { image := img, results := [] }

/-- An `image` mapping whose `registry` constituent is not a string. -/
def doc9 : Fields :=
  Fields.fcons "image"
    (Value.vmap (Fields.fcons "repository" (Value.str "nginx")
      (Fields.fcons "registry" Value.other Fields.nil)))
    Fields.nil


/-- A mapper that maps exactly `ghcr.io/a/b` (the spec's example). -/
def mAB : Mapper := fun img =>
  if img = "ghcr.io/a/b" then
    Except.ok { image := img, results := ["cgr.dev/chainguard/b:latest"] }
  else
    Except.ok { image := img, results := [] }

/-- The spec's example document `{image: "ghcr.io/a/b"}`. -/
def docAB : Fields := Fields.fcons "image" (Value.str "ghcr.io/a/b") Fields.nil

/-- A mapper that maps exactly the image `redis`. -/
def mRedis : Mapper := fun img =>
  if img = "redis" then
    Except.ok { image := img, results := ["cgr.dev/chainguard/redis:latest"] }
  else
    Except.ok { image := img, results := [] }

/-- A document whose `image` mapping holds a `registry` mapping that
itself contains a scalar `image` key. -/
def cexDocC3 : Fields :=
  Fields.fcons "image"
    (Value.vmap (Fields.fcons "repository" (Value.str "redis")
      (Fields.fcons "registry"
        (Value.vmap (Fields.fcons "image" (Value.str "redis") Fields.nil))
        Fields.nil)))
    Fields.nil

/-- A mapper that maps exactly the image `grafana`. -/
def mGrafana : Mapper := fun img =>
  if img = "grafana" then
    Except.ok { image := img, results := ["cgr.dev/chainguard/grafana:latest"] }
  else
    Except.ok { image := img, results := [] }

/-- A document with one field whose mapping fails, next to a nested
collision like the one of `cexDocC3`. -/
def cexDocC4 : Fields :=
  Fields.fcons "broken"
    (Value.vmap (Fields.fcons "image" (Value.str "unknown") Fields.nil))
    (Fields.fcons "image"
      (Value.vmap (Fields.fcons "repository" (Value.str "grafana")
        (Fields.fcons "registry"
          (Value.vmap (Fields.fcons "image" (Value.str "grafana") Fields.nil))
          Fields.nil)))
      Fields.nil)

/-- A document with one matched scalar image and one unmatched one. -/
def docC4w : Fields :=
  Fields.fcons "image" (Value.str "ghcr.io/a/b")
    (Fields.fcons "resources"
      (Value.vmap (Fields.fcons "image" (Value.str "unmatched") Fields.nil))
      Fields.nil)


/-!
## Theorems about the catalog clients and alias correction
-/

/-- `fixAliases` preserves the number of records. -/
theorem fixAliases_length (repos : List Repo) :
    (fixAliases repos).length = repos.length := by
  simp [fixAliases]

/-- C5: for every record list and index, alias correction replaces the
aliases of a record whose name is in the table by exactly the table's
value, leaving all other fields unchanged, and passes records whose name
is not in the table through unchanged. -/
theorem fixAliases_pointwise (repos : List Repo) (i : Nat) (h : i < repos.length) :
    (fixAliases repos).length = repos.length ∧
    (∀ aliases, lookupFix (repos.get ⟨i, h⟩).name = some aliases →
      (fixAliases repos).get ⟨i, by rw [fixAliases_length]; exact h⟩ =
        { repos.get ⟨i, h⟩ with aliases := aliases }) ∧
    (lookupFix (repos.get ⟨i, h⟩).name = none →
      (fixAliases repos).get ⟨i, by rw [fixAliases_length]; exact h⟩ = repos.get ⟨i, h⟩) := by
  refine ⟨fixAliases_length repos, ?_, ?_⟩
  · intro aliases ha
    simp only [fixAliases, List.get_eq_getElem, List.getElem_map]
    simp only [List.get_eq_getElem] at ha
    rw [ha]
  · intro ha
    simp only [fixAliases, List.get_eq_getElem, List.getElem_map]
    simp only [List.get_eq_getElem] at ha
    rw [ha]

/-- Witness for C5 at a concrete in-table record. -/
theorem fixAliases_pointwise_witness :
    (fixAliases [repoArgoCli]).get ⟨0, by rw [fixAliases_length]; decide⟩ =
      { repoArgoCli with aliases := ["quay.io/argoproj/argocli"] } :=
  (fixAliases_pointwise [repoArgoCli] 0 (by decide)).2.1
    ["quay.io/argoproj/argocli"] (by decide)

/-- C7: alias correction is idempotent. -/
theorem fixAliases_idempotent (repos : List Repo) :
    fixAliases (fixAliases repos) = fixAliases repos := by
  induction repos with
  | nil => rfl
  | cons r rs ih =>
    cases h : lookupFix r.name with
    | some al => simp_all [fixAliases, h]
    | none => simp_all [fixAliases, h]

/-- C1: the in-memory cache serves a stored snapshot younger than the
cache duration without calling the wrapped client; otherwise it calls
the wrapped client exactly once, stores and returns a successful result,
and on failure returns the error leaving the stored snapshot
unchanged. -/
theorem cachingListRepos_spec (cacheDuration now : Int)
    (delegate : Except String RepoList) (st : Option RepoList) :
    (∀ rl, st = some rl → now - rl.fetchedAt < cacheDuration →
      cachingListRepos cacheDuration now delegate st = (Except.ok rl, some rl, 0)) ∧
    ((∀ rl, st = some rl → ¬ now - rl.fetchedAt < cacheDuration) →
      ((cachingListRepos cacheDuration now delegate st).2.2 = 1 ∧
       (∀ rl2, delegate = Except.ok rl2 →
         cachingListRepos cacheDuration now delegate st = (Except.ok rl2, some rl2, 1)) ∧
       (∀ e, delegate = Except.error e →
         cachingListRepos cacheDuration now delegate st = (Except.error e, st, 1)))) := by
  constructor
  · rintro rl rfl hlt
    simp [cachingListRepos, hlt]
  · intro hmiss
    have hbranch : cachingListRepos cacheDuration now delegate st = cachingFetch delegate st := by
      cases st with
      | none => rfl
      | some rl => simp [cachingListRepos, hmiss rl rfl]
    refine ⟨?_, ?_, ?_⟩
    · rw [hbranch]; cases delegate <;> simp [cachingFetch]
    · rintro rl2 rfl; rw [hbranch]; simp [cachingFetch]
    · rintro e rfl; rw [hbranch]; simp [cachingFetch]

/-- Witness for C1: a fresh hit is served from the cache, and an expired
entry is refreshed through the wrapped client. -/
theorem cachingListRepos_spec_witness :
    cachingListRepos 10 5 (Except.error "boom") (some rlOld) =
      (Except.ok rlOld, some rlOld, 0) ∧
    cachingListRepos 10 90 (Except.ok rlNew) (some rlOld) =
      (Except.ok rlNew, some rlNew, 1) :=
  ⟨(cachingListRepos_spec 10 5 (Except.error "boom") (some rlOld)).1 rlOld rfl (by decide),
   ((cachingListRepos_spec 10 90 (Except.ok rlNew) (some rlOld)).2
      (by rintro rl hrl; cases hrl; decide)).2.1 rlNew rfl⟩

/-- C2: a cache file that exists but cannot be parsed makes the
disk-cache client return an error with zero calls to the wrapped client
and the file untouched; it is not treated as a cache miss. -/
theorem fileListRepos_corrupt_cache (cacheDuration now : Int)
    (delegate : Except String RepoList) (mkdirOk writeOk : Bool) :
    fileListRepos cacheDuration now delegate mkdirOk writeOk CacheFile.corrupt =
      (Except.error (FileErr.cacheErr CacheErr.unmarshalError), CacheFile.corrupt, 0) := by
  rfl

/-- C6: a parsable cached snapshot younger than the cache duration is
returned with zero calls to the wrapped client; an older one causes
exactly one call to the wrapped client, and on its success (with the
directory creation and file write succeeding) the cache file is
overwritten with the fresh snapshot, which is returned. -/
theorem fileListRepos_freshness (cacheDuration now : Int)
    (delegate : Except String RepoList) (rl : RepoList) :
    (now - rl.fetchedAt < cacheDuration →
      fileListRepos cacheDuration now delegate true true (CacheFile.valid rl) =
        (Except.ok rl, CacheFile.valid rl, 0)) ∧
    (¬ now - rl.fetchedAt < cacheDuration →
      ((fileListRepos cacheDuration now delegate true true (CacheFile.valid rl)).2.2 = 1 ∧
       ∀ rl2, delegate = Except.ok rl2 →
         fileListRepos cacheDuration now delegate true true (CacheFile.valid rl) =
           (Except.ok rl2, CacheFile.valid rl2, 1))) := by
  constructor
  · intro hlt
    simp [fileListRepos, getRepoList, hlt]
  · intro hge
    constructor
    · simp only [fileListRepos, getRepoList, hge, if_false]
      cases delegate <;> simp [fileFetch, putRepoList]
    · rintro rl2 rfl
      simp [fileListRepos, getRepoList, hge, fileFetch, putRepoList]

/-- Witness for C6: a fresh disk snapshot is served without a fetch; a
stale one is refreshed and rewritten. -/
theorem fileListRepos_freshness_witness :
    fileListRepos 10 5 (Except.error "boom") true true (CacheFile.valid rlOld) =
      (Except.ok rlOld, CacheFile.valid rlOld, 0) ∧
    fileListRepos 10 90 (Except.ok rlNew) true true (CacheFile.valid rlOld) =
      (Except.ok rlNew, CacheFile.valid rlNew, 1) :=
  ⟨(fileListRepos_freshness 10 5 (Except.error "boom") rlOld).1 (by decide),
   ((fileListRepos_freshness 10 90 (Except.ok rlNew) rlOld).2 (by decide)).2 rlNew rfl⟩

/-- C8 counterexample: 201 Created is a success (2xx) status carrying a
well-formed body, yet the remote client's response handling returns an
error, refuting "errors exactly on non-2xx status or malformed body". -/
theorem repoClientListRepos_status201 :
    (200 ≤ 201 ∧ 201 < 300) ∧
    repoClientListRepos 0 201 (Body.wellFormed []) =
      Except.error (ListErr.statusErr 201) :=
  ⟨by decide, rfl⟩

/-- C8 amended: the response handling errors exactly when the status
code differs from 200 (`http.StatusOK`) or the body is malformed; on a
200 status with a well-formed body it returns the decoded repository
list with alias correction applied. -/
theorem repoClientListRepos_spec (now : Int) (statusCode : Nat) (body : Body) :
    ((∃ e, repoClientListRepos now statusCode body = Except.error e) ↔
      (statusCode ≠ 200 ∨ body = Body.malformed)) ∧
    (∀ repos, statusCode = 200 → body = Body.wellFormed repos →
      repoClientListRepos now statusCode body =
        Except.ok { repos := fixAliases repos, fetchedAt := now }) := by
  constructor
  · by_cases hs : statusCode = 200
    · subst hs
      cases body with
      | wellFormed repos => simp [repoClientListRepos]
      | malformed => simp [repoClientListRepos]
    · simp [repoClientListRepos, hs]
  · rintro repos rfl rfl
    simp [repoClientListRepos]

/-- Witness for C8 amended: a 200 response with a well-formed body
returns the alias-corrected list. -/
theorem repoClientListRepos_spec_witness :
    repoClientListRepos 7 200 (Body.wellFormed [repoArgoCli]) =
      Except.ok { repos := [{ repoArgoCli with aliases := ["quay.io/argoproj/argocli"] }],
                  fetchedAt := 7 } := by
  have h := (repoClientListRepos_spec 7 200 (Body.wellFormed [repoArgoCli])).2
    [repoArgoCli] rfl rfl
  rw [h]
  rfl

/-!
## Theorems about the tree rewriter
-/

/-- C9 counterexample: an `image` mapping with a string `repository` but
a non-string `registry` constituent is not left untouched — the rewriter
maps the repository and emits `registry`/`repository` fields for it,
refuting "other constituent values not strings → nothing is emitted". -/
theorem mapFn_unrecognized_cex :
    assocFind (Fields.fcons "repository" (Value.str "nginx")
      (Fields.fcons "registry" Value.other Fields.nil)) "registry" = some Value.other ∧
    mapValuesTree mNginx doc9 =
      some (Fields.fcons "image"
        (Value.vmap (Fields.fcons "registry" (Value.str "cgr.dev")
          (Fields.fcons "repository" (Value.str "chainguard/nginx") Fields.nil)))
        Fields.nil) :=
  ⟨rfl, rfl⟩

/-- C9 amended: an `image` mapping value emits nothing and is left
untouched when its `repository` field is missing, is not a string, or is
the empty string; other non-string constituents do not by themselves
suppress emission. -/
theorem mapFn_unrecognized_repository (m : Mapper) (path : List String)
    (img out : Fields) :
    (assocFind img "repository" = none →
      mapFn m path "image" (Value.vmap img) out = some out) ∧
    (∀ v, assocFind img "repository" = some v → (∀ s, v ≠ Value.str s) →
      mapFn m path "image" (Value.vmap img) out = some out) ∧
    (assocFind img "repository" = some (Value.str "") →
      mapFn m path "image" (Value.vmap img) out = some out) := by
  refine ⟨?_, ?_, ?_⟩
  · intro h
    simp [mapFn, repoField, h]
  · intro v h hv
    have hrepo : repoField img = "" := by
      unfold repoField
      rw [h]
      cases v with
      | str s => exact absurd rfl (hv s)
      | vmap f => rfl
      | seq l => rfl
      | other => rfl
    simp [mapFn, hrepo]
  · intro h
    simp [mapFn, repoField, h]

/-- Witness for C9 amended: a mapping with no `repository` key emits
nothing even though its `registry` would match. -/
theorem mapFn_unrecognized_repository_witness :
    mapFn mNginx [] "image"
      (Value.vmap (Fields.fcons "registry" (Value.str "nginx") Fields.nil))
      Fields.nil = some Fields.nil :=
  (mapFn_unrecognized_repository mNginx []
    (Fields.fcons "registry" (Value.str "nginx") Fields.nil) Fields.nil).1 rfl

theorem assocFind_pruneF (f : Fields) (k : String) :
    assocFind (pruneF f) k = (assocFind f k).map pruneV := by
  cases f with
  | nil => rfl
  | fcons k2 v rest =>
    by_cases h : k2 = k <;> simp [pruneF, assocFind, h, assocFind_pruneF rest k]
termination_by sizeOf f

theorem repoField_pruneF (img : Fields) :
    repoField (pruneF img) = repoField img := by
  unfold repoField
  rw [assocFind_pruneF]
  cases h : assocFind img "repository" with
  | none => rfl
  | some v => cases v <;> rfl

theorem fullRepoField_pruneF (img : Fields) :
    fullRepoField (pruneF img) = fullRepoField img := by
  unfold fullRepoField
  rw [assocFind_pruneF, repoField_pruneF]
  cases h : assocFind img "registry" with
  | none => rfl
  | some v => cases v <;> rfl

theorem assocFind_pruneF_isSome (img : Fields) (k : String) :
    (assocFind (pruneF img) k).isSome = (assocFind img k).isSome := by
  rw [assocFind_pruneF]
  cases assocFind img k <;> rfl

theorem mapFn_pruneV (m : Mapper) (path : List String) (k : String) (v : Value)
    (out : Fields) : mapFn m path k (pruneV v) out = mapFn m path k v out := by
  by_cases hk : k = "image"
  · subst hk
    cases v with
    | str s => rfl
    | other => rfl
    | seq l => rfl
    | vmap img =>
      simp only [pruneV, mapFn, repoField_pruneF, fullRepoField_pruneF,
        assocFind_pruneF_isSome]
  · simp [mapFn, hk]

theorem walkValues_pruneF (m : Mapper) (path : List String) (values out : Fields) :
    walkValues m path (pruneF values) out = walkValues m path values out := by
  cases values with
  | nil => rfl
  | fcons k v rest =>
    rw [pruneF, walkValues, walkValues, mapFn_pruneV]
    cases hm : mapFn m path k v out with
    | none => rfl
    | some out1 =>
      cases v with
      | vmap next =>
        simp only [pruneV]
        rw [walkValues_pruneF m (path ++ [k]) next out1]
        cases walkValues m (path ++ [k]) next out1 with
        | none => rfl
        | some out2 => exact walkValues_pruneF m path rest out2
      | str s => exact walkValues_pruneF m path rest out1
      | seq l => exact walkValues_pruneF m path rest out1
      | other => exact walkValues_pruneF m path rest out1
termination_by sizeOf values

theorem visitsF_pruneF (path : List String) (values : Fields) :
    (visitsF path (pruneF values)).map (fun t => (t.1, t.2.1)) =
      (visitsF path values).map (fun t => (t.1, t.2.1)) := by
  cases values with
  | nil => rfl
  | fcons k v rest =>
    cases v with
    | vmap next =>
      simp only [pruneF, pruneV, visitsF, List.map_cons, List.map_append]
      rw [visitsF_pruneF (path ++ [k]) next, visitsF_pruneF path rest]
    | str s =>
      simp only [pruneF, pruneV, visitsF, List.map_cons, List.map_append]
      rw [visitsF_pruneF path rest]
    | seq l =>
      simp only [pruneF, pruneV, visitsF, List.map_cons, List.map_append]
      rw [visitsF_pruneF path rest]
    | other =>
      simp only [pruneF, pruneV, visitsF, List.map_cons, List.map_append]
      rw [visitsF_pruneF path rest]
termination_by sizeOf values

/-- C10: sequence elements are invisible to the traversal: emptying
every sequence in the input changes neither the visited (path, key)
list nor the result of `MapValues`, and the walk function ignores a
sequence-valued `image` key; hence an `image` key inside a sequence
element is never visited, never mapped and never contributes to the
output. -/
theorem sequences_never_visited (m : Mapper) (input : Fields) :
    mapValuesTree m (pruneF input) = mapValuesTree m input ∧
    (visitsF [] (pruneF input)).map (fun t => (t.1, t.2.1)) =
      (visitsF [] input).map (fun t => (t.1, t.2.1)) ∧
    (∀ path out elems, mapFn m path "image" (Value.seq elems) out = some out) :=
  ⟨walkValues_pruneF m [] input Fields.nil, visitsF_pruneF [] input,
   fun _ _ _ => rfl⟩

theorem assocFind_assocSet_same (f : Fields) (k : String) (v : Value) :
    assocFind (assocSet f k v) k = some v := by
  cases f with
  | nil => simp [assocSet, assocFind]
  | fcons k2 v2 rest =>
    by_cases h : k2 = k <;>
      simp [assocSet, assocFind, h, assocFind_assocSet_same rest k v]
termination_by sizeOf f

theorem assocFind_assocSet_ne (f : Fields) (k k2 : String) (v : Value)
    (h : k2 ≠ k) : assocFind (assocSet f k v) k2 = assocFind f k2 := by
  cases f with
  | nil => simp [assocSet, assocFind, Ne.symm h]
  | fcons k3 v3 rest =>
    by_cases h3 : k3 = k
    · subst h3
      simp [assocSet, assocFind, Ne.symm h]
    · by_cases h2 : k3 = k2 <;>
        simp [assocSet, assocFind, h3, h2, h, assocFind_assocSet_ne rest k k2 v h]
termination_by sizeOf f

theorem getPath_fields_nil (q : List String) : getPath Fields.nil q = none := by
  match q with
  | [] => rfl
  | [k] => rfl
  | k :: r :: rest => rfl

theorem getPath_cons_of_find_vmap (f : Fields) (k : String) (sub : Fields)
    (q : List String) (hf : assocFind f k = some (Value.vmap sub)) (hq : q ≠ []) :
    getPath f (k :: q) = getPath sub q := by
  match q with
  | [] => exact absurd rfl hq
  | r :: rest =>
    show (match assocFind f k with
      | some (Value.vmap s) => getPath s (r :: rest)
      | _ => none) = getPath sub (r :: rest)
    rw [hf]

theorem getPath_cons_of_find_none (f : Fields) (k : String)
    (q : List String) (hf : assocFind f k = none) (hq : q ≠ []) :
    getPath f (k :: q) = none := by
  match q with
  | [] => exact absurd rfl hq
  | r :: rest =>
    show (match assocFind f k with
      | some (Value.vmap s) => getPath s (r :: rest)
      | _ => none) = none
    rw [hf]

theorem getPath_cons_of_find_str (f : Fields) (k s : String)
    (q : List String) (hf : assocFind f k = some (Value.str s)) (hq : q ≠ []) :
    getPath f (k :: q) = none := by
  match q with
  | [] => exact absurd rfl hq
  | r :: rest =>
    show (match assocFind f k with
      | some (Value.vmap s2) => getPath s2 (r :: rest)
      | _ => none) = none
    rw [hf]

theorem getPath_assocSet_ne (f : Fields) (k k2 : String) (v : Value)
    (q : List String) (h : k2 ≠ k) :
    getPath (assocSet f k v) (k2 :: q) = getPath f (k2 :: q) := by
  match q with
  | [] =>
    show assocFind (assocSet f k v) k2 = assocFind f k2
    exact assocFind_assocSet_ne f k k2 v h
  | r :: rest =>
    show (match assocFind (assocSet f k v) k2 with
      | some (Value.vmap sub) => getPath sub (r :: rest)
      | _ => none) = (match assocFind f k2 with
      | some (Value.vmap sub) => getPath sub (r :: rest)
      | _ => none)
    rw [assocFind_assocSet_ne f k k2 v h]

theorem setValue_str_spec (p : List String) (out : Fields) (s0 : String)
    (hp : p ≠ [])
    (hnav : ∀ q, q <+: p → q ≠ p → q ≠ [] →
      ∀ w, getPath out q = some w → ∃ sub, w = Value.vmap sub) :
    ∃ out2, setValue out p (Value.str s0) = some out2 ∧
      getPath out2 p = some (Value.str s0) ∧
      (∀ q, ¬ p <+: q → ¬ q <+: p → getPath out2 q = getPath out q) ∧
      (∀ q, q <+: p → q ≠ p → q ≠ [] →
        ∀ w, getPath out2 q = some w → ∃ sub, w = Value.vmap sub) ∧
      (∀ q, p <+: q → q ≠ p → getPath out2 q = none) := by
  match p with
  | [] => exact absurd rfl hp
  | [k] =>
    refine ⟨assocSet out k (Value.str s0), rfl, assocFind_assocSet_same out k _,
      ?_, ?_, ?_⟩
    · intro q hpq hqp
      match q with
      | [] => rfl
      | k2 :: qrest =>
        have hk2 : k2 ≠ k := by
          rintro rfl
          cases qrest with
          | nil => exact hqp (List.prefix_refl _)
          | cons a b => exact hpq ⟨a :: b, rfl⟩
        exact getPath_assocSet_ne out k k2 _ qrest hk2
    · intro q hq hqne hqnil w _
      exfalso
      rcases hq with ⟨t, ht⟩
      match q, ht with
      | [], ht => exact hqnil rfl
      | a :: q2, ht =>
        have ha : a = k := by
          have := congrArg (fun l => l.head?) ht
          simpa using this
        subst ha
        have h2 : q2 ++ t = [] := by
          have := congrArg (fun l => l.tail) ht
          simpa using this
        rcases List.append_eq_nil.mp h2 with ⟨rfl, rfl⟩
        exact hqne rfl
    · intro q hq hqne
      rcases hq with ⟨t, rfl⟩
      have ht : t ≠ [] := by
        rintro rfl
        exact hqne rfl
      match t, ht with
      | r :: trest, ht =>
        show getPath (assocSet out k (Value.str s0)) (k :: r :: trest) = none
        exact getPath_cons_of_find_str _ k s0 (r :: trest)
          (assocFind_assocSet_same out k _) (by simp)
  | k :: r :: rest =>
    have hp2 : (r :: rest) ≠ ([] : List String) := by simp
    cases hfind : assocFind out k with
    | none =>
      obtain ⟨sub2, hset, hget, hinc, hpre, hext⟩ :=
        setValue_str_spec (r :: rest) Fields.nil s0 hp2
          (by intro q _ _ _ w hw; rw [getPath_fields_nil] at hw; cases hw)
      refine ⟨assocSet out k (Value.vmap sub2), ?_, ?_, ?_, ?_, ?_⟩
      · show (match assocFind out k with
          | none =>
            (match setValue Fields.nil (r :: rest) (Value.str s0) with
             | none => none
             | some sub => some (assocSet out k (Value.vmap sub)))
          | some (Value.vmap sub) =>
            (match setValue sub (r :: rest) (Value.str s0) with
             | none => none
             | some sub2 => some (assocSet out k (Value.vmap sub2)))
          | some _ => none) = some (assocSet out k (Value.vmap sub2))
        rw [hfind, hset]
      · rw [getPath_cons_of_find_vmap _ k sub2 (r :: rest)
          (assocFind_assocSet_same out k _) hp2]
        exact hget
      · intro q hpq hqp
        match q with
        | [] => rfl
        | k2 :: qrest =>
          by_cases hk2 : k2 = k
          · subst hk2
            match qrest, hpq, hqp with
            | [], hpq, hqp => exact absurd ⟨r :: rest, rfl⟩ hqp
            | a :: b, hpq, hqp =>
              have hq2 : (a :: b) ≠ ([] : List String) := by simp
              rw [getPath_cons_of_find_vmap _ k2 sub2 (a :: b)
                  (assocFind_assocSet_same out k2 _) hq2,
                getPath_cons_of_find_none out k2 (a :: b) hfind hq2,
                hinc (a :: b)
                  (fun hc => hpq (List.cons_prefix_cons.mpr ⟨rfl, hc⟩))
                  (fun hc => hqp (List.cons_prefix_cons.mpr ⟨rfl, hc⟩)),
                getPath_fields_nil]
          · exact getPath_assocSet_ne out k k2 _ qrest hk2
      · intro q hq hqne hqnil w hw
        match q, hq, hqne, hqnil, hw with
        | [], hq, hqne, hqnil, hw => exact absurd rfl hqnil
        | k2 :: qrest, hq, hqne, hqnil, hw =>
          obtain ⟨hk2, hq2⟩ := List.cons_prefix_cons.mp hq
          rw [hk2] at hw hqne
          match qrest, hq2, hqne, hw with
          | [], hq2, hqne, hw =>
            have hgp : getPath (assocSet out k (Value.vmap sub2)) [k] =
                some (Value.vmap sub2) := assocFind_assocSet_same out k _
            rw [hgp] at hw
            exact ⟨sub2, (Option.some_inj.mp hw).symm⟩
          | a :: b, hq2, hqne, hw =>
            have hq3 : (a :: b) ≠ ([] : List String) := by simp
            rw [getPath_cons_of_find_vmap _ k sub2 (a :: b)
              (assocFind_assocSet_same out k _) hq3] at hw
            exact hpre (a :: b) hq2 (fun hc => hqne (by rw [hc])) hq3 w hw
      · intro q hq hqne
        rcases hq with ⟨t, rfl⟩
        have ht : ((r :: rest) ++ t) ≠ ([] : List String) := by simp
        show getPath (assocSet out k (Value.vmap sub2)) (k :: ((r :: rest) ++ t)) = none
        rw [getPath_cons_of_find_vmap _ k sub2 _ (assocFind_assocSet_same out k _) ht]
        refine hext _ ⟨t, rfl⟩ ?_
        intro hc
        exact hqne (congrArg (fun l => k :: l) hc)
    | some w0 =>
      cases w0 with
      | vmap sub =>
        obtain ⟨sub2, hset, hget, hinc, hpre, hext⟩ :=
          setValue_str_spec (r :: rest) sub s0 hp2 (by
            intro q hq hqne hqnil w hw
            refine hnav (k :: q) (List.cons_prefix_cons.mpr ⟨rfl, hq⟩)
              (by simpa using hqne) (by simp) w ?_
            rw [getPath_cons_of_find_vmap out k sub q hfind hqnil]
            exact hw)
        refine ⟨assocSet out k (Value.vmap sub2), ?_, ?_, ?_, ?_, ?_⟩
        · show (match assocFind out k with
            | none =>
              (match setValue Fields.nil (r :: rest) (Value.str s0) with
               | none => none
               | some sub => some (assocSet out k (Value.vmap sub)))
            | some (Value.vmap sub) =>
              (match setValue sub (r :: rest) (Value.str s0) with
               | none => none
               | some sub2 => some (assocSet out k (Value.vmap sub2)))
            | some _ => none) = some (assocSet out k (Value.vmap sub2))
          rw [hfind]
          show (match setValue sub (r :: rest) (Value.str s0) with
            | none => none
            | some sub2 => some (assocSet out k (Value.vmap sub2))) =
              some (assocSet out k (Value.vmap sub2))
          rw [hset]
        · rw [getPath_cons_of_find_vmap _ k sub2 (r :: rest)
            (assocFind_assocSet_same out k _) hp2]
          exact hget
        · intro q hpq hqp
          match q with
          | [] => rfl
          | k2 :: qrest =>
            by_cases hk2 : k2 = k
            · subst hk2
              match qrest, hpq, hqp with
              | [], hpq, hqp => exact absurd ⟨r :: rest, rfl⟩ hqp
              | a :: b, hpq, hqp =>
                have hq2 : (a :: b) ≠ ([] : List String) := by simp
                rw [getPath_cons_of_find_vmap _ k2 sub2 (a :: b)
                    (assocFind_assocSet_same out k2 _) hq2,
                  getPath_cons_of_find_vmap out k2 sub (a :: b) hfind hq2]
                exact hinc (a :: b)
                  (fun hc => hpq (List.cons_prefix_cons.mpr ⟨rfl, hc⟩))
                  (fun hc => hqp (List.cons_prefix_cons.mpr ⟨rfl, hc⟩))
            · exact getPath_assocSet_ne out k k2 _ qrest hk2
        · intro q hq hqne hqnil w hw
          match q, hq, hqne, hqnil, hw with
          | [], hq, hqne, hqnil, hw => exact absurd rfl hqnil
          | k2 :: qrest, hq, hqne, hqnil, hw =>
            obtain ⟨hk2, hq2⟩ := List.cons_prefix_cons.mp hq
            rw [hk2] at hw hqne
            match qrest, hq2, hqne, hw with
            | [], hq2, hqne, hw =>
              have hgp : getPath (assocSet out k (Value.vmap sub2)) [k] =
                  some (Value.vmap sub2) := assocFind_assocSet_same out k _
              rw [hgp] at hw
              exact ⟨sub2, (Option.some_inj.mp hw).symm⟩
            | a :: b, hq2, hqne, hw =>
              have hq3 : (a :: b) ≠ ([] : List String) := by simp
              rw [getPath_cons_of_find_vmap _ k sub2 (a :: b)
                (assocFind_assocSet_same out k _) hq3] at hw
              exact hpre (a :: b) hq2 (fun hc => hqne (by rw [hc])) hq3 w hw
        · intro q hq hqne
          rcases hq with ⟨t, rfl⟩
          have ht : ((r :: rest) ++ t) ≠ ([] : List String) := by simp
          show getPath (assocSet out k (Value.vmap sub2)) (k :: ((r :: rest) ++ t)) = none
          rw [getPath_cons_of_find_vmap _ k sub2 _ (assocFind_assocSet_same out k _) ht]
          refine hext _ ⟨t, rfl⟩ ?_
          intro hc
          exact hqne (congrArg (fun l => k :: l) hc)
      | str s =>
        exfalso
        obtain ⟨sub, hsub⟩ := hnav [k] ⟨r :: rest, rfl⟩ (by simp) (by simp)
          (Value.str s) hfind
        cases hsub
      | seq l =>
        exfalso
        obtain ⟨sub, hsub⟩ := hnav [k] ⟨r :: rest, rfl⟩ (by simp) (by simp)
          (Value.seq l) hfind
        cases hsub
      | other =>
        exfalso
        obtain ⟨sub, hsub⟩ := hnav [k] ⟨r :: rest, rfl⟩ (by simp) (by simp)
          Value.other hfind
        cases hsub

theorem pathsIncomparable_iff (p q : List String) :
    pathsIncomparable p q = true ↔ ¬ p <+: q ∧ ¬ q <+: p := by
  rw [pathsIncomparable, Bool.and_eq_true, Bool.not_eq_true', Bool.not_eq_true']
  constructor
  · rintro ⟨h1, h2⟩
    refine ⟨?_, ?_⟩
    · intro hc
      rw [← List.isPrefixOf_iff_prefix] at hc
      rw [hc] at h1
      cases h1
    · intro hc
      rw [← List.isPrefixOf_iff_prefix] at hc
      rw [hc] at h2
      cases h2
  · rintro ⟨h1, h2⟩
    refine ⟨?_, ?_⟩
    · cases hb : p.isPrefixOf q
      · rfl
      · exact absurd (List.isPrefixOf_iff_prefix.mp hb) h1
    · cases hb : q.isPrefixOf p
      · rfl
      · exact absurd (List.isPrefixOf_iff_prefix.mp hb) h2

theorem applyWrites_char (ws : List (List String × Value)) :
    ∀ (done : List (List String × Value)) (out : Fields),
    (∀ pv ∈ ws, pv.1 ≠ [] ∧ ∃ s : String, pv.2 = Value.str s) →
    PrefixFreeP (writePaths (done ++ ws)) →
    (∀ q s, getPath out q = some (Value.str s) ↔ (q, Value.str s) ∈ done) →
    (∀ q w, getPath out q = some w →
      (∃ sub, w = Value.vmap sub) ∨ ∃ s, w = Value.str s) →
    ∃ out2, applyWrites out ws = some out2 ∧
      (∀ q s, getPath out2 q = some (Value.str s) ↔ (q, Value.str s) ∈ done ++ ws) ∧
      (∀ q w, getPath out2 q = some w →
        (∃ sub, w = Value.vmap sub) ∨ ∃ s, w = Value.str s) := by
  induction ws with
  | nil =>
    intro done out hstr hpf hinv1 hinv2
    exact ⟨out, rfl, by simpa using hinv1, hinv2⟩
  | cons pv rest ih =>
    intro done out hstr hpf hinv1 hinv2
    obtain ⟨hpne, s0, hs0⟩ := hstr pv (List.mem_cons_self _ _)
    obtain ⟨p, v⟩ := pv
    simp only at hs0 hpne
    subst hs0
    have hpf2 := hpf
    unfold PrefixFreeP at hpf2
    rw [writePaths, List.map_append, List.pairwise_append] at hpf2
    obtain ⟨hpfDone, hpfCur, hcross⟩ := hpf2
    have hpcur : p ∈ ((p, Value.str s0) :: rest).map (fun w => w.1) :=
      List.mem_map_of_mem _ (List.mem_cons_self _ _)
    have hPdone : ∀ q, q ∈ done.map (fun w => w.1) → ¬ q <+: p ∧ ¬ p <+: q := by
      intro q hq
      have h := hcross q hq p hpcur
      exact (pathsIncomparable_iff q p).mp h
    have hnav : ∀ q, q <+: p → q ≠ p → q ≠ [] →
        ∀ w, getPath out q = some w → ∃ sub, w = Value.vmap sub := by
      intro q hq hqne hqnil w hw
      rcases hinv2 q w hw with ⟨sub, rfl⟩ | ⟨s, rfl⟩
      · exact ⟨sub, rfl⟩
      · exfalso
        have hqdone : (q, Value.str s) ∈ done := (hinv1 q s).mp hw
        exact (hPdone q (List.mem_map_of_mem _ hqdone)).1 hq
    obtain ⟨outMid, hset, hget, hincq, hpreq, hextq⟩ :=
      setValue_str_spec p out s0 hpne hnav
    have hinv1Mid : ∀ q s, getPath outMid q = some (Value.str s) ↔
        (q, Value.str s) ∈ done ++ [(p, Value.str s0)] := by
      intro q s
      by_cases hqp : q = p
      · subst hqp
        rw [hget]
        constructor
        · intro h
          have hs : s0 = s := by
            have := Option.some_inj.mp h
            cases this
            rfl
          subst hs
          exact List.mem_append_right _ (List.mem_singleton.mpr rfl)
        · intro h
          rcases List.mem_append.mp h with hd | hs
          · exact absurd (List.prefix_refl q)
              (hPdone q (List.mem_map_of_mem _ hd)).1
          · rw [List.mem_singleton] at hs
            have : Value.str s = Value.str s0 := congrArg Prod.snd hs
            cases this
            rfl
      · by_cases hpq : p <+: q
        · rw [hextq q hpq hqp]
          constructor
          · intro h
            cases h
          · intro h
            exfalso
            rcases List.mem_append.mp h with hd | hs
            · exact (hPdone q (List.mem_map_of_mem _ hd)).2 hpq
            · rw [List.mem_singleton] at hs
              exact hqp (congrArg Prod.fst hs)
        · by_cases hqp2 : q <+: p
          · constructor
            · intro h
              exfalso
              by_cases hqnil : q = []
              · subst hqnil
                rw [show getPath outMid [] = none from rfl] at h
                cases h
              · obtain ⟨sub, hsub⟩ := hpreq q hqp2 hqp hqnil (Value.str s) h
                cases hsub
            · intro h
              exfalso
              rcases List.mem_append.mp h with hd | hs
              · exact (hPdone q (List.mem_map_of_mem _ hd)).1 hqp2
              · rw [List.mem_singleton] at hs
                exact hqp (congrArg Prod.fst hs)
          · rw [hincq q hpq hqp2, hinv1 q s]
            constructor
            · intro h
              exact List.mem_append_left _ h
            · intro h
              rcases List.mem_append.mp h with hd | hs
              · exact hd
              · rw [List.mem_singleton] at hs
                exact absurd (congrArg Prod.fst hs) hqp
    have hinv2Mid : ∀ q w, getPath outMid q = some w →
        (∃ sub, w = Value.vmap sub) ∨ ∃ s, w = Value.str s := by
      intro q w hw
      by_cases hqp : q = p
      · subst hqp
        rw [hget] at hw
        exact Or.inr ⟨s0, (Option.some_inj.mp hw).symm⟩
      · by_cases hpq : p <+: q
        · rw [hextq q hpq hqp] at hw
          cases hw
        · by_cases hqp2 : q <+: p
          · by_cases hqnil : q = []
            · subst hqnil
              rw [show getPath outMid [] = none from rfl] at hw
              cases hw
            · exact Or.inl (hpreq q hqp2 hqp hqnil w hw)
          · rw [hincq q hpq hqp2] at hw
            exact hinv2 q w hw
    have hpfNext : PrefixFreeP (writePaths ((done ++ [(p, Value.str s0)]) ++ rest)) := by
      rw [← List.append_cons]
      exact hpf
    obtain ⟨out2, happ, hinv1F, hinv2F⟩ :=
      ih (done ++ [(p, Value.str s0)]) outMid
        (fun pv h => hstr pv (List.mem_cons_of_mem _ h)) hpfNext hinv1Mid hinv2Mid
    refine ⟨out2, ?_, ?_, hinv2F⟩
    · show (match setValue out p (Value.str s0) with
        | none => none
        | some o => applyWrites o rest) = some out2
      rw [hset]
      exact happ
    · intro q s
      rw [hinv1F q s, ← List.append_cons]

theorem applyWrites_append (ws1 : List (List String × Value)) :
    ∀ (out : Fields) (ws2 : List (List String × Value)),
    applyWrites out (ws1 ++ ws2) =
      match applyWrites out ws1 with
      | none => none
      | some o => applyWrites o ws2 := by
  induction ws1 with
  | nil => intro out ws2; rfl
  | cons pv rest ih =>
    intro out ws2
    obtain ⟨p, v⟩ := pv
    show (match setValue out p v with
      | none => none
      | some o => applyWrites o (rest ++ ws2)) =
      (match (match setValue out p v with
        | none => none
        | some o => applyWrites o rest) with
       | none => none
       | some o => applyWrites o ws2)
    cases setValue out p v with
    | none => rfl
    | some o => exact ih o ws2

theorem applyWrites_one (out : Fields) (p : List String) (v : Value) :
    applyWrites out [(p, v)] = setValue out p v := by
  show (match setValue out p v with
    | none => none
    | some o => applyWrites o []) = setValue out p v
  cases setValue out p v with
  | none => rfl
  | some o => rfl

theorem applyWrites_two (out : Fields) (p1 p2 : List String) (v1 v2 : Value) :
    applyWrites out [(p1, v1), (p2, v2)] =
      (match setValue out p1 v1 with
       | none => none
       | some o => setValue o p2 v2) := by
  show (match setValue out p1 v1 with
    | none => none
    | some o => applyWrites o [(p2, v2)]) = _
  cases setValue out p1 v1 with
  | none => rfl
  | some o => exact applyWrites_one o p2 v2


theorem mapFn_eq_writes (m : Mapper) (path : List String) (key : String)
    (value : Value) (out : Fields) :
    mapFn m path key value out = applyWrites out (writesV m path key value) := by
  by_cases hk : key = "image"
  · subst hk
    cases value with
    | str img =>
      simp only [mapFn, writesV, if_neg (by simp : ¬ "image" ≠ "image")]
      cases mapImage m img with
      | ok ref => rw [applyWrites_one]
      | error e => rfl
    | vmap img =>
      cases hmi : mapImage m (fullRepoField img) with
      | ok ref =>
        by_cases hrepo : repoField img ≠ ""
        · by_cases hreg : (assocFind img "registry").isSome = true
          · simp only [mapFn, writesV, if_neg (by simp : ¬ "image" ≠ "image"),
              if_pos hrepo, hmi, if_pos hreg, applyWrites_two]
          · simp only [mapFn, writesV, if_neg (by simp : ¬ "image" ≠ "image"),
              if_pos hrepo, hmi, if_neg hreg, applyWrites_one]
        · simp only [mapFn, writesV, if_neg (by simp : ¬ "image" ≠ "image"),
            if_neg hrepo]
          rfl
      | error e =>
        by_cases hrepo : repoField img ≠ ""
        · simp only [mapFn, writesV, if_neg (by simp : ¬ "image" ≠ "image"),
            if_pos hrepo, hmi]
          rfl
        · simp only [mapFn, writesV, if_neg (by simp : ¬ "image" ≠ "image"),
            if_neg hrepo]
          rfl
    | seq l => rfl
    | other => rfl
  · simp only [mapFn, writesV, if_pos hk]
    rfl

theorem walkValues_eq_writes (m : Mapper) (path : List String) (values : Fields)
    (out : Fields) :
    walkValues m path values out = applyWrites out (writesF m path values) := by
  cases values with
  | nil =>
    simp only [walkValues, writesF]
    rfl
  | fcons k v rest =>
    cases v with
    | vmap next =>
      simp only [walkValues, writesF, mapFn_eq_writes]
      rw [applyWrites_append]
      cases applyWrites out (writesV m path k (Value.vmap next)) with
      | none => rfl
      | some out1 =>
        show (match walkValues m (path ++ [k]) next out1 with
          | none => none
          | some out2 => walkValues m path rest out2) =
          applyWrites out1 (writesF m (path ++ [k]) next ++ writesF m path rest)
        rw [applyWrites_append, walkValues_eq_writes m (path ++ [k]) next out1]
        cases applyWrites out1 (writesF m (path ++ [k]) next) with
        | none => rfl
        | some out2 =>
          show walkValues m path rest out2 = _
          exact walkValues_eq_writes m path rest out2
    | str s =>
      simp only [walkValues, writesF, mapFn_eq_writes, List.nil_append]
      rw [applyWrites_append]
      cases applyWrites out (writesV m path k (Value.str s)) with
      | none => rfl
      | some out1 =>
        show walkValues m path rest out1 = applyWrites out1 (writesF m path rest)
        exact walkValues_eq_writes m path rest out1
    | seq l =>
      simp only [walkValues, writesF, mapFn_eq_writes, List.nil_append]
      rw [applyWrites_append]
      cases applyWrites out (writesV m path k (Value.seq l)) with
      | none => rfl
      | some out1 =>
        show walkValues m path rest out1 = applyWrites out1 (writesF m path rest)
        exact walkValues_eq_writes m path rest out1
    | other =>
      simp only [walkValues, writesF, mapFn_eq_writes, List.nil_append]
      rw [applyWrites_append]
      cases applyWrites out (writesV m path k Value.other) with
      | none => rfl
      | some out1 =>
        show walkValues m path rest out1 = applyWrites out1 (writesF m path rest)
        exact walkValues_eq_writes m path rest out1
termination_by sizeOf values

theorem writesV_strWrites (m : Mapper) (path : List String) (key : String)
    (value : Value) :
    ∀ pv ∈ writesV m path key value, pv.1 ≠ [] ∧ ∃ s : String, pv.2 = Value.str s := by
  intro pv hmem
  by_cases hk : key = "image"
  · subst hk
    cases value with
    | str img =>
      cases hmi : mapImage m img with
      | ok ref =>
        simp only [writesV, if_neg (by simp : ¬ "image" ≠ "image"), hmi,
          List.mem_singleton] at hmem
        subst hmem
        exact ⟨by simp, ⟨contextString ref, rfl⟩⟩
      | error e =>
        simp only [writesV, if_neg (by simp : ¬ "image" ≠ "image"), hmi,
          List.not_mem_nil] at hmem
    | vmap img =>
      cases hmi : mapImage m (fullRepoField img) with
      | ok ref =>
        by_cases hrepo : repoField img ≠ ""
        · by_cases hreg : (assocFind img "registry").isSome = true
          · simp only [writesV, if_neg (by simp : ¬ "image" ≠ "image"),
              if_pos hrepo, hmi, if_pos hreg, List.mem_cons,
              List.mem_singleton, List.not_mem_nil, or_false] at hmem
            rcases hmem with rfl | rfl
            · exact ⟨by simp, ⟨ref.registry, rfl⟩⟩
            · exact ⟨by simp, ⟨ref.repository, rfl⟩⟩
          · simp only [writesV, if_neg (by simp : ¬ "image" ≠ "image"),
              if_pos hrepo, hmi, if_neg hreg, List.mem_singleton] at hmem
            subst hmem
            exact ⟨by simp, ⟨contextString ref, rfl⟩⟩
        · simp only [writesV, if_neg (by simp : ¬ "image" ≠ "image"),
            if_neg hrepo, List.not_mem_nil] at hmem
      | error e =>
        by_cases hrepo : repoField img ≠ ""
        · simp only [writesV, if_neg (by simp : ¬ "image" ≠ "image"),
            if_pos hrepo, hmi, List.not_mem_nil] at hmem
        · simp only [writesV, if_neg (by simp : ¬ "image" ≠ "image"),
            if_neg hrepo, List.not_mem_nil] at hmem
    | seq l =>
      simp only [writesV, if_neg (by simp : ¬ "image" ≠ "image"),
        List.not_mem_nil] at hmem
    | other =>
      simp only [writesV, if_neg (by simp : ¬ "image" ≠ "image"),
        List.not_mem_nil] at hmem
  · simp only [writesV, if_pos hk, List.not_mem_nil] at hmem

theorem writesF_strWrites (m : Mapper) (path : List String) (values : Fields) :
    ∀ pv ∈ writesF m path values, pv.1 ≠ [] ∧ ∃ s : String, pv.2 = Value.str s := by
  intro pv hmem
  cases values with
  | nil => simp only [writesF, List.not_mem_nil] at hmem
  | fcons k v rest =>
    cases v with
    | vmap next =>
      simp only [writesF, List.mem_append] at hmem
      rcases hmem with h1 | h2 | h3
      · exact writesV_strWrites m path k (Value.vmap next) pv h1
      · exact writesF_strWrites m (path ++ [k]) next pv h2
      · exact writesF_strWrites m path rest pv h3
    | str s =>
      simp only [writesF, List.nil_append, List.mem_append] at hmem
      rcases hmem with h1 | h3
      · exact writesV_strWrites m path k (Value.str s) pv h1
      · exact writesF_strWrites m path rest pv h3
    | seq l =>
      simp only [writesF, List.nil_append, List.mem_append] at hmem
      rcases hmem with h1 | h3
      · exact writesV_strWrites m path k (Value.seq l) pv h1
      · exact writesF_strWrites m path rest pv h3
    | other =>
      simp only [writesF, List.nil_append, List.mem_append] at hmem
      rcases hmem with h1 | h3
      · exact writesV_strWrites m path k Value.other pv h1
      · exact writesF_strWrites m path rest pv h3
termination_by sizeOf values

theorem visit_writes_mem (m : Mapper) (path0 : List String) (values : Fields) :
    ∀ p k v, (p, k, v) ∈ visitsF path0 values →
    ∀ w ∈ writesV m p k v, w ∈ writesF m path0 values := by
  intro p k v hvisit w hw
  cases values with
  | nil => simp only [visitsF, List.not_mem_nil] at hvisit
  | fcons k2 v2 rest =>
    cases v2 with
    | vmap next =>
      simp only [visitsF, List.mem_cons, List.mem_append, Prod.mk.injEq] at hvisit
      simp only [writesF, List.mem_append]
      rcases hvisit with ⟨hp, hk, hv⟩ | h2 | h3
      · subst hp; subst hk; subst hv
        exact Or.inl hw
      · exact Or.inr (Or.inl (visit_writes_mem m (path0 ++ [k2]) next p k v h2 w hw))
      · exact Or.inr (Or.inr (visit_writes_mem m path0 rest p k v h3 w hw))
    | str s =>
      simp only [visitsF, List.nil_append, List.mem_cons, Prod.mk.injEq] at hvisit
      simp only [writesF, List.nil_append, List.mem_append]
      rcases hvisit with ⟨hp, hk, hv⟩ | h3
      · subst hp; subst hk; subst hv
        exact Or.inl hw
      · exact Or.inr (visit_writes_mem m path0 rest p k v h3 w hw)
    | seq l =>
      simp only [visitsF, List.nil_append, List.mem_cons, Prod.mk.injEq] at hvisit
      simp only [writesF, List.nil_append, List.mem_append]
      rcases hvisit with ⟨hp, hk, hv⟩ | h3
      · subst hp; subst hk; subst hv
        exact Or.inl hw
      · exact Or.inr (visit_writes_mem m path0 rest p k v h3 w hw)
    | other =>
      simp only [visitsF, List.nil_append, List.mem_cons, Prod.mk.injEq] at hvisit
      simp only [writesF, List.nil_append, List.mem_append]
      rcases hvisit with ⟨hp, hk, hv⟩ | h3
      · subst hp; subst hk; subst hv
        exact Or.inl hw
      · exact Or.inr (visit_writes_mem m path0 rest p k v h3 w hw)
termination_by sizeOf values

/-- C3 counterexample: in `cexDocC3` the nested key at path
`image.registry.image` is literally `image` with scalar string value
`redis`, which the mapper maps to one candidate; yet `MapValues` aborts
(the source's unchecked type assertion in `setValue` panics after the
outer image write), so no output document contains the mapped reference
at that path. -/
theorem mapValues_scalar_image_cex :
    (["image", "registry"], "image", Value.str "redis") ∈ visitsF [] cexDocC3 ∧
    mapImage mRedis "redis" =
      Except.ok { registry := "cgr.dev", repository := "chainguard/redis", tag := "latest" } ∧
    mapValuesTree mRedis cexDocC3 = none := by
  refine ⟨?_, rfl, rfl⟩
  simp [cexDocC3, visitsF]

/-- C3 amended: provided the traversal's successful write paths are
pairwise prefix-incomparable, every visited key literally equal to
`image` whose value is a scalar string that the mapper maps (and whose
first candidate parses) gets, at the same key path in the output, the
mapped reference's canonical context `registry/repository` as a scalar
string, with any tag stripped. -/
theorem mapValues_scalar_image (m : Mapper) (input : Fields)
    (hpf : PrefixFreeP (writePaths (writesF m [] input)))
    (p : List String) (img : String) (ref : Reference)
    (hv : (p, "image", Value.str img) ∈ visitsF [] input)
    (hm : mapImage m img = Except.ok ref) :
    ∃ out, mapValuesTree m input = some out ∧
      getPath out (p ++ ["image"]) = some (Value.str (contextString ref)) := by
  have hw : (p ++ ["image"], Value.str (contextString ref)) ∈ writesF m [] input := by
    refine visit_writes_mem m [] input p "image" (Value.str img) hv _ ?_
    simp only [writesV, if_neg (by simp : ¬ "image" ≠ "image"), hm,
      List.mem_singleton]
  obtain ⟨out2, happ, hinv1, _⟩ :=
    applyWrites_char (writesF m [] input) [] Fields.nil
      (writesF_strWrites m [] input) hpf
      (by intro q s; rw [getPath_fields_nil]; simp)
      (by intro q w hw2; rw [getPath_fields_nil] at hw2; cases hw2)
  refine ⟨out2, ?_, ?_⟩
  · rw [mapValuesTree, walkValues_eq_writes]
    exact happ
  · rw [hinv1]
    simpa using hw

/-- Witness for C3 amended at the spec's example: `{image:
"ghcr.io/a/b"}` with candidate `cgr.dev/chainguard/b:latest` yields
`{image: "cgr.dev/chainguard/b"}`. -/
theorem mapValues_scalar_image_witness :
    ∃ out, mapValuesTree mAB docAB = some out ∧
      getPath out ["image"] = some (Value.str "cgr.dev/chainguard/b") :=
  mapValues_scalar_image mAB docAB (by decide) [] "ghcr.io/a/b"
    { registry := "cgr.dev", repository := "chainguard/b", tag := "latest" }
    (List.mem_singleton.mpr rfl) rfl

/-- C4 counterexample: `cexDocC4` contains a field whose mapping fails
(`broken.image`), but `MapValues` does not succeed on it: the source's
unchecked type assertion in `setValue` panics while handling the other,
successfully mapped fields, so the claim's "MapValues still succeeds" is
false as a universal statement. -/
theorem mapValues_exact_overlay_cex :
    (["broken"], "image", Value.str "unknown") ∈ visitsF [] cexDocC4 ∧
    mapImage mGrafana "unknown" = Except.error () ∧
    mapValuesTree mGrafana cexDocC4 = none := by
  refine ⟨?_, rfl, rfl⟩
  simp [cexDocC4, visitsF]

/-- C4 amended: provided the traversal's successful write paths are
pairwise prefix-incomparable, `MapValues` succeeds and its output
contains a scalar string at exactly the successfully rewritten paths
(failed fields contribute nothing); moreover a mapping failure on a
scalar or mapping-shaped `image` field leaves the output untouched at
that field, so traversal continues over the remaining fields. -/
theorem mapValues_exact_overlay (m : Mapper) (input : Fields)
    (hpf : PrefixFreeP (writePaths (writesF m [] input))) :
    (∃ out, mapValuesTree m input = some out ∧
      ∀ p s, getPath out p = some (Value.str s) ↔
        (p, Value.str s) ∈ writesF m [] input) ∧
    (∀ path img out2, mapImage m img = Except.error () →
      mapFn m path "image" (Value.str img) out2 = some out2) ∧
    (∀ path img out2, mapImage m (fullRepoField img) = Except.error () →
      mapFn m path "image" (Value.vmap img) out2 = some out2) := by
  refine ⟨?_, ?_, ?_⟩
  · obtain ⟨out2, happ, hinv1, _⟩ :=
      applyWrites_char (writesF m [] input) [] Fields.nil
        (writesF_strWrites m [] input) hpf
        (by intro q s; rw [getPath_fields_nil]; simp)
        (by intro q w hw2; rw [getPath_fields_nil] at hw2; cases hw2)
    refine ⟨out2, ?_, ?_⟩
    · rw [mapValuesTree, walkValues_eq_writes]
      exact happ
    · intro p s
      rw [hinv1 p s]
      simp
  · intro path img out2 hmi
    simp [mapFn, hmi]
  · intro path img out2 hmi
    by_cases hrepo : repoField img ≠ ""
    · simp [mapFn, hrepo, hmi]
    · simp [mapFn, hrepo]

/-- Witness for C4 amended: a document with one matched and one
unmatched image field. -/
theorem mapValues_exact_overlay_witness :
    (∃ out, mapValuesTree mAB docC4w = some out ∧
      ∀ p s, getPath out p = some (Value.str s) ↔
        (p, Value.str s) ∈ writesF mAB [] docC4w) ∧
    (∀ path img out2, mapImage mAB img = Except.error () →
      mapFn mAB path "image" (Value.str img) out2 = some out2) ∧
    (∀ path img out2, mapImage mAB (fullRepoField img) = Except.error () →
      mapFn mAB path "image" (Value.vmap img) out2 = some out2) :=
  mapValues_exact_overlay mAB docC4w (by decide)

end ImageMapper
